import Mathlib

/-!
Shallow embedding of the gtkpdf-reader application (src/main.c).

File contents of the bookmark sidecar file are modelled as lists of byte
values (`List Nat`).  The libc formatted-IO primitives used by the code
(`fprintf(f, "%d\n", ...)` and `fscanf(f, "%d", ...)`) are modelled by the
byte-level functions below.  Geometry (`fz_rect`, `fz_point`, zoom factors)
is modelled over `ℚ`; C `int` values are modelled as `Int`.
-/

namespace GtkPdf

/-- A byte is an ASCII decimal digit (as tested by `fscanf` with `%d`). -/
def isDigitByte (b : Nat) : Bool := 48 ≤ b && b ≤ 57

/-- Whitespace bytes skipped by `fscanf` before a `%d` conversion. -/
def isSpaceByte (b : Nat) : Bool :=
  b = 32 || b = 9 || b = 10 || b = 13 || b = 11 || b = 12

/-- Numeric value of a decimal digit byte. -/
def digitVal (b : Nat) : Nat := b - 48

/-- Decimal digit bytes of a natural number, most significant first:
the output of `fprintf` with `%u`-style formatting of `m`. -/
def natBytes (m : Nat) : List Nat :=
  if m = 0 then [48] else (Nat.digits 10 m).reverse.map (fun d => d + 48)

/-- Byte output of `fprintf(f, "%d", n)` for a C `int` value `n`. -/
def intBytes (n : Int) : List Nat :=
  if n < 0 then 45 :: natBytes n.natAbs else natBytes n.toNat

/-- Accumulate the value of a run of decimal digit bytes, as `fscanf` does. -/
def digitsToNat (ds : List Nat) : Nat := ds.foldl (fun a b => a * 10 + digitVal b) 0

/-- Scan an unsigned decimal run at the front of `bs`; `none` when no digit
is present (the `%d` conversion fails). -/
def scanIntCore (sign : Int) (bs : List Nat) : Option Int :=
  let ds := bs.takeWhile isDigitByte
  if ds = [] then none else some (sign * Int.ofNat (digitsToNat ds))

/-- Model of `fscanf(f, "%d", &p)` on a byte stream: skip whitespace, accept
an optional sign, then require at least one digit. -/
def fscanf_d (bs : List Nat) : Option Int :=
  match bs.dropWhile isSpaceByte with
  | [] => none
  | b :: rest =>
    if b = 45 then scanIntCore (-1) rest
    else if b = 43 then scanIntCore 1 rest
    else scanIntCore 1 (b :: rest)

/-- `bookmark_path` (src/main.c:48): the sidecar path is the document path
with the literal suffix `.bookmark`; a null path yields a null result. -/
def bookmark_path (pdf : Option String) : Option String :=
  pdf.map (fun p => p ++ ".bookmark")

/-- Byte content written by `save_bookmark` (src/main.c:66): when a bookmark
is set (`bookmark_page >= 0`) the 1-based page number and a newline, else
the file is truncated to empty. -/
def save_bookmark (bookmark_page : Int) : List Nat :=
  if 0 ≤ bookmark_page then intBytes (bookmark_page + 1) ++ [10] else []

/-- `load_bookmark` (src/main.c:52): result of reading the sidecar file;
`none` models a file that cannot be opened.  Starts from the sentinel `-1`
and, when one integer can be scanned, stores it minus 1. -/
def load_bookmark (file : Option (List Nat)) : Int :=
  match file with
  | none => -1
  | some bs =>
    match fscanf_d bs with
    | some p => p - 1
    | none => -1

/-! ### Decimal round-trip lemmas -/

theorem digitVal_shift (d : Nat) : digitVal (d + 48) = d := by
  simp [digitVal]

theorem foldl_reverse_ofDigits (L : List Nat) (a : Nat) :
    L.reverse.foldl (fun a d => a * 10 + d) a =
      a * 10 ^ L.length + Nat.ofDigits 10 L := by
  induction L generalizing a with
  | nil => simp
  | cons d L ih =>
    simp only [List.reverse_cons, List.foldl_append, List.foldl_cons, List.foldl_nil,
      ih, Nat.ofDigits_cons, List.length_cons, pow_succ]
    ring

theorem digitsToNat_natBytes (m : Nat) : digitsToNat (natBytes m) = m := by
  by_cases h : m = 0
  · subst h; simp [digitsToNat, natBytes, digitVal]
  · simp only [natBytes, h, if_false, digitsToNat, List.foldl_map]
    have hfun : (fun (a b : Nat) => a * 10 + digitVal (b + 48)) =
        (fun (a d : Nat) => a * 10 + d) := by
      funext a b
      rw [digitVal_shift]
    rw [hfun, foldl_reverse_ofDigits, Nat.ofDigits_digits]
    simp

theorem natBytes_digits (m : Nat) : ∀ b ∈ natBytes m, 48 ≤ b ∧ b ≤ 57 := by
  intro b hb
  by_cases h : m = 0
  · subst h; simp [natBytes] at hb; omega
  · simp only [natBytes, h, if_false, List.mem_map, List.mem_reverse] at hb
    obtain ⟨d, hd, rfl⟩ := hb
    have := Nat.digits_lt_base (by norm_num) hd
    omega

theorem natBytes_ne_nil (m : Nat) : natBytes m ≠ [] := by
  by_cases h : m = 0
  · subst h; simp [natBytes]
  · simp only [natBytes, h, if_false]
    simp [Nat.digits_ne_nil_iff_ne_zero, h]

theorem takeWhile_append_all {p : Nat → Bool} (l₁ l₂ : List Nat) (y : Nat)
    (h₁ : ∀ x ∈ l₁, p x = true) (hy : p y = false) :
    (l₁ ++ y :: l₂).takeWhile p = l₁ := by
  induction l₁ with
  | nil => simp [List.takeWhile, hy]
  | cons a l ih =>
    have ha : p a = true := h₁ a (List.mem_cons_self a l)
    simp only [List.cons_append, List.takeWhile_cons, ha, if_true]
    rw [ih (fun x hx => h₁ x (List.mem_cons_of_mem a hx))]

theorem fscanf_d_natBytes (m : Nat) : fscanf_d (natBytes m ++ [10]) = some (m : Int) := by
  obtain ⟨b, bs, hcons⟩ : ∃ b bs, natBytes m = b :: bs := by
    cases h : natBytes m with
    | nil => exact absurd h (natBytes_ne_nil m)
    | cons b bs => exact ⟨b, bs, rfl⟩
  have hbmem : b ∈ natBytes m := by rw [hcons]; exact List.mem_cons_self b bs
  have hb : 48 ≤ b ∧ b ≤ 57 := natBytes_digits m b hbmem
  have hspace : isSpaceByte b = false := by simp [isSpaceByte]; omega
  have hdrop : (natBytes m ++ [10]).dropWhile isSpaceByte = b :: (bs ++ [10]) := by
    rw [hcons, List.cons_append, List.dropWhile_cons]
    simp [hspace]
  have htake : (natBytes m ++ [10]).takeWhile isDigitByte = natBytes m := by
    apply takeWhile_append_all
    · intro x hx
      have := natBytes_digits m x hx
      simp [isDigitByte]; omega
    · simp [isDigitByte]
  rw [fscanf_d, hdrop]
  have hb45 : ¬ b = 45 := by omega
  have hb43 : ¬ b = 43 := by omega
  simp only [hb45, if_false, hb43]
  rw [scanIntCore]
  have hcons2 : b :: (bs ++ [10]) = natBytes m ++ [10] := by rw [hcons]; simp
  simp only [hcons2, htake, natBytes_ne_nil m, if_false]
  rw [digitsToNat_natBytes]
  simp

/-- Claim C1: bookmark persistence round-trips.  For every bookmark state
(`bm ≥ 0` a page index, or the unset sentinel `-1`), saving the bookmark to
the sidecar file and loading it back restores the same state: save writes
the 1-based page number (or an empty file when unset) and load reads it
back and subtracts 1 (or leaves `-1` when no number can be read). -/
theorem bookmark_roundtrip (bm : Int) (h : -1 ≤ bm) :
    load_bookmark (some (save_bookmark bm)) = bm := by
  by_cases h0 : 0 ≤ bm
  · have hpos : ¬ bm + 1 < 0 := by omega
    simp only [save_bookmark, h0, if_true, intBytes, hpos, if_false]
    rw [load_bookmark]
    rw [fscanf_d_natBytes ((bm + 1).toNat)]
    show ((bm + 1).toNat : Int) - 1 = bm
    omega
  · have hbm : bm = -1 := by omega
    subst hbm
    simp [save_bookmark, load_bookmark, fscanf_d, List.dropWhile]

/-- Witness for C1 at a concrete bookmark state. -/
theorem bookmark_roundtrip_witness :
    load_bookmark (some (save_bookmark 41)) = 41 :=
  bookmark_roundtrip 41 (by omega)

/-- Claim C7: the bookmark sidecar path is the document path with the
literal suffix `.bookmark` appended, and whenever a bookmark is set
(`bm ≥ 0`) `save_bookmark` writes exactly one 1-based page number followed
by a newline: the file content is a nonempty run of decimal digit bytes
whose value scans back as `bm + 1`, then the newline byte, and nothing
else. -/
theorem bookmark_sidecar_format :
    (∀ p : String, bookmark_path (some p) = some (p ++ ".bookmark")) ∧
    (∀ bm : Int, 0 ≤ bm →
      save_bookmark bm = natBytes (bm + 1).toNat ++ [10] ∧
      natBytes (bm + 1).toNat ≠ [] ∧
      (∀ b ∈ natBytes (bm + 1).toNat, 48 ≤ b ∧ b ≤ 57) ∧
      fscanf_d (save_bookmark bm) = some (bm + 1)) := by
  refine ⟨fun p => rfl, fun bm h0 => ?_⟩
  have hpos : ¬ bm + 1 < 0 := by omega
  have hcontent : save_bookmark bm = natBytes (bm + 1).toNat ++ [10] := by
    simp only [save_bookmark, h0, if_true, intBytes, hpos, if_false]
  refine ⟨hcontent, natBytes_ne_nil _, natBytes_digits _, ?_⟩
  rw [hcontent, fscanf_d_natBytes]
  have hcast : (((bm + 1).toNat : Int)) = bm + 1 := by omega
  rw [hcast]

/-- Witness for C7 at a concrete path and bookmark page. -/
theorem bookmark_sidecar_format_witness :
    bookmark_path (some "a.pdf") = some "a.pdf.bookmark" ∧
    fscanf_d (save_bookmark 3) = some 4 :=
  ⟨bookmark_sidecar_format.1 "a.pdf", (bookmark_sidecar_format.2 3 (by omega)).2.2.2⟩

/-! ### Geometry: rectangles, points, screen-to-document mapping -/

/-- `fz_rect`, modelled over `ℚ`. -/
structure Rect where
  x0 : ℚ
  y0 : ℚ
  x1 : ℚ
  y1 : ℚ
  deriving DecidableEq

/-- The cleared selection rectangle `{0, 0, 0, 0}`. -/
def emptyRect : Rect := ⟨0, 0, 0, 0⟩

/-- `rect_intersects_selection` (src/main.c:190): C `int` result, 0 or 1. -/
def rect_intersects_selection (r1 r2 : Rect) : Int :=
  if r1.x1 ≤ r2.x0 ∨ r1.x0 ≥ r2.x1 then 0
  else if r1.y1 ≤ r2.y0 ∨ r1.y0 ≥ r2.y1 then 0
  else 1

/-- Claim C3: the rectangle overlap test is exact strict-interior
intersection: it returns 1 iff `r1.x0 < r2.x1`, `r1.x1 > r2.x0`,
`r1.y0 < r2.y1` and `r1.y1 > r2.y0`; rectangles that merely touch along an
edge do not intersect. -/
theorem rect_intersects_selection_iff (r1 r2 : Rect) :
    rect_intersects_selection r1 r2 = 1 ↔
      (r1.x0 < r2.x1 ∧ r1.x1 > r2.x0 ∧ r1.y0 < r2.y1 ∧ r1.y1 > r2.y0) := by
  rw [rect_intersects_selection]
  split_ifs with h1 h2
  · constructor
    · intro h; exact absurd h (by norm_num)
    · intro h
      rcases h1 with h1 | h1 <;> exact absurd h1 (by push_neg; tauto)
  · constructor
    · intro h; exact absurd h (by norm_num)
    · intro h
      rcases h2 with h2 | h2 <;> exact absurd h2 (by push_neg; tauto)
  · push_neg at h1 h2
    constructor
    · intro _; exact ⟨h1.2, h1.1, h2.2, h2.1⟩
    · intro _; rfl

/-- `screen_to_pdf` (src/main.c:78): map a screen point to document
coordinates.  The null checks on `drawing_area` and `doc` are modelled by
the two booleans; the widget size, page raster size, zoom factor and the
input point are rational parameters. -/
def screen_to_pdf (hasDrawingArea docOpen : Bool)
    (drawing_w drawing_h page_w page_h zoom_factor sx sy : ℚ) : ℚ × ℚ :=
  if ¬hasDrawingArea ∨ ¬docOpen then (0, 0)
  else
    let ox := if drawing_w > page_w then (drawing_w - page_w) / 2 else 0
    let oy := if drawing_h > page_h then (drawing_h - page_h) / 2 else 0
    let px := max 0 (min page_w (sx - ox))
    let py := max 0 (min page_h (sy - oy))
    if zoom_factor > 0 then (px / zoom_factor, py / zoom_factor) else (0, 0)

/-- Claim C2: the screen-to-document mapping is total and bounded: with a
positive zoom factor the result always lies in
`[0, page_w / zoom] × [0, page_h / zoom]`, and when the drawing area or the
document is absent the result is `(0, 0)`. -/
theorem screen_to_pdf_bounded (dw dh pw ph z sx sy : ℚ)
    (hpw : 0 ≤ pw) (hph : 0 ≤ ph) (hz : 0 < z) :
    (0 ≤ (screen_to_pdf true true dw dh pw ph z sx sy).1 ∧
     (screen_to_pdf true true dw dh pw ph z sx sy).1 ≤ pw / z ∧
     0 ≤ (screen_to_pdf true true dw dh pw ph z sx sy).2 ∧
     (screen_to_pdf true true dw dh pw ph z sx sy).2 ≤ ph / z) ∧
    (∀ hda dOpen : Bool, hda = false ∨ dOpen = false →
      screen_to_pdf hda dOpen dw dh pw ph z sx sy = (0, 0)) := by
  constructor
  · rw [screen_to_pdf]
    simp only [Bool.not_true, or_self, if_false, hz, if_true, gt_iff_lt]
    set ox := if dw > pw then (dw - pw) / 2 else 0 with hox
    set oy := if dh > ph then (dh - ph) / 2 else 0 with hoy
    have hx0 : (0 : ℚ) ≤ max 0 (min pw (sx - ox)) := le_max_left 0 _
    have hy0 : (0 : ℚ) ≤ max 0 (min ph (sy - oy)) := le_max_left 0 _
    have hx1 : max 0 (min pw (sx - ox)) ≤ pw :=
      max_le hpw (min_le_left _ _)
    have hy1 : max 0 (min ph (sy - oy)) ≤ ph :=
      max_le hph (min_le_left _ _)
    refine ⟨div_nonneg hx0 hz.le, ?_, div_nonneg hy0 hz.le, ?_⟩
    · exact div_le_div_of_nonneg_right hx1 hz.le
    · exact div_le_div_of_nonneg_right hy1 hz.le
  · intro hda dOpen h
    rcases h with h | h <;> subst h <;> simp [screen_to_pdf]

/-- Witness for C2 at a concrete viewport, page size, zoom and point. -/
theorem screen_to_pdf_bounded_witness :
    0 ≤ (screen_to_pdf true true 100 100 50 40 2 75 90).1 ∧
    (screen_to_pdf true true 100 100 50 40 2 75 90).1 ≤ 50 / 2 ∧
    screen_to_pdf false true 100 100 50 40 2 75 90 = (0, 0) := by
  have h := screen_to_pdf_bounded 100 100 50 40 2 75 90
    (by norm_num) (by norm_num) (by norm_num)
  exact ⟨h.1.1, h.1.2.1, h.2 false true (Or.inl rfl)⟩

/-! ### Pixel-format conversion (render_current_page, src/main.c:143-152)

The source pixmap is a byte buffer read through `src : Nat → Nat`; the
inner loop of `render_current_page` emits, for row `y` and column `x`, the
four bytes `src[y*stride+3x+2], src[y*stride+3x+1], src[y*stride+3x], 255`
in output order (B, G, R, A). -/

/-- One row of the conversion loop: bytes emitted for columns `0..w-1` of
row `y`. -/
def convRow (src : Nat → Nat) (stride y : Nat) : Nat → List Nat
  | 0 => []
  | x + 1 => convRow src stride y x ++
      [src (y * stride + 3 * x + 2), src (y * stride + 3 * x + 1),
       src (y * stride + 3 * x), 255]

/-- The full output buffer of the conversion loops: rows `0..h-1`, each of
`w` pixels, at input stride `stride`. -/
def render_pixels (src : Nat → Nat) (stride w : Nat) : Nat → List Nat
  | 0 => []
  | y + 1 => render_pixels src stride w y ++ convRow src stride y w

theorem convRow_length (src : Nat → Nat) (stride y w : Nat) :
    (convRow src stride y w).length = 4 * w := by
  induction w with
  | zero => rfl
  | succ w ih => simp [convRow, ih]; omega

theorem render_pixels_length (src : Nat → Nat) (stride w h : Nat) :
    (render_pixels src stride w h).length = h * (w * 4) := by
  induction h with
  | zero => simp [render_pixels]
  | succ h ih => simp [render_pixels, ih, convRow_length]; ring

theorem convRow_get (src : Nat → Nat) (stride y w x c : Nat)
    (hx : x < w) (hc : c < 4) :
    (convRow src stride y w)[4 * x + c]? =
      some (if c = 0 then src (y * stride + 3 * x + 2)
            else if c = 1 then src (y * stride + 3 * x + 1)
            else if c = 2 then src (y * stride + 3 * x) else 255) := by
  induction w with
  | zero => omega
  | succ w ih =>
    rcases Nat.lt_succ_iff_lt_or_eq.mp hx with hlt | rfl
    · have hlen : 4 * x + c < (convRow src stride y w).length := by
        rw [convRow_length]; omega
      rw [convRow, List.getElem?_append, if_pos hlen]
      exact ih hlt
    · have hlen : ¬ 4 * x + c < (convRow src stride y x).length := by
        rw [convRow_length]; omega
      rw [convRow, List.getElem?_append, if_neg hlen, convRow_length]
      have hsub : 4 * x + c - 4 * x = c := by omega
      rw [hsub]
      interval_cases c <;> simp

theorem convRow_congr (src src2 : Nat → Nat) (stride y : Nat) :
    ∀ w : Nat, (∀ i, i < y * stride + 3 * w → src i = src2 i) →
      convRow src stride y w = convRow src2 stride y w := by
  intro w
  induction w with
  | zero => intro _; rfl
  | succ w ih =>
    intro hag
    rw [convRow, convRow, ih (fun i hi => hag i (by omega))]
    have e0 : src (y * stride + 3 * w) = src2 (y * stride + 3 * w) :=
      hag _ (by omega)
    have e1 : src (y * stride + 3 * w + 1) = src2 (y * stride + 3 * w + 1) :=
      hag _ (by omega)
    have e2 : src (y * stride + 3 * w + 2) = src2 (y * stride + 3 * w + 2) :=
      hag _ (by omega)
    rw [e0, e1, e2]

theorem render_pixels_congr (src src2 : Nat → Nat) (stride w : Nat)
    (hstride : 3 * w ≤ stride) :
    ∀ h : Nat, (∀ i, i < h * stride → src i = src2 i) →
      render_pixels src stride w h = render_pixels src2 stride w h := by
  intro h
  induction h with
  | zero => intro _; rfl
  | succ h ih =>
    intro hag
    have heq : (h + 1) * stride = h * stride + stride := by ring
    have hih := ih (fun i hi => hag i (by omega))
    have hrow := convRow_congr src src2 stride h w (fun i hi => hag i (by omega))
    rw [render_pixels, render_pixels, hih, hrow]

/-- Claim C4: the pixel-format conversion is an exact per-pixel channel
reordering.  First conjunct: for every `y < h`, `x < w`, channel `c < 4`,
the output byte at offset `y*(w*4) + 4*x + c` is
`src[y*stride+3x+2]`, `src[y*stride+3x+1]`, `src[y*stride+3x]`, `255`
respectively (R and B swapped, constant alpha 255), so no source pixel is
skipped.  Second conjunct: when `stride ≥ 3*w`, the output depends only on
source bytes at offsets below `h*stride`, so no read is out of bounds
within the page dimensions. -/
theorem render_pixels_channels (src : Nat → Nat) (stride w h y x c : Nat)
    (hy : y < h) (hx : x < w) (hc : c < 4) :
    ((render_pixels src stride w h)[y * (w * 4) + 4 * x + c]? =
      some (if c = 0 then src (y * stride + 3 * x + 2)
            else if c = 1 then src (y * stride + 3 * x + 1)
            else if c = 2 then src (y * stride + 3 * x) else 255)) ∧
    (∀ src2 : Nat → Nat, 3 * w ≤ stride →
      (∀ i, i < h * stride → src i = src2 i) →
      render_pixels src stride w h = render_pixels src2 stride w h) := by
  constructor
  · induction h with
    | zero => omega
    | succ h ih =>
      rcases Nat.lt_succ_iff_lt_or_eq.mp hy with hlt | rfl
      · have hlen : y * (w * 4) + 4 * x + c < (render_pixels src stride w h).length := by
          rw [render_pixels_length]
          have hy1 : y + 1 ≤ h := hlt
          have hstep : (y + 1) * (w * 4) ≤ h * (w * 4) := Nat.mul_le_mul_right _ hy1
          have hexp : (y + 1) * (w * 4) = y * (w * 4) + w * 4 := by ring
          omega
        rw [render_pixels, List.getElem?_append, if_pos hlen]
        exact ih hlt
      · have hlen : ¬ y * (w * 4) + 4 * x + c < (render_pixels src stride w y).length := by
          rw [render_pixels_length]; omega
        rw [render_pixels, List.getElem?_append, if_neg hlen, render_pixels_length]
        have hsub : y * (w * 4) + 4 * x + c - y * (w * 4) = 4 * x + c := by omega
        rw [hsub]
        exact convRow_get src stride y w x c hx hc
  · intro src2 hstride hagree
    exact render_pixels_congr src src2 stride w hstride h hagree

/-- Witness for C4: the green channel of pixel (1, 1) in a 2x2 image with
stride 6 over the identity source buffer. -/
theorem render_pixels_channels_witness :
    (render_pixels (fun i => i) 6 2 2)[1 * (2 * 4) + 4 * 1 + 1]? = some 10 := by
  have h := (render_pixels_channels (fun i => i) 6 2 2 1 1 1
    (by omega) (by omega) (by omega)).1
  simpa using h

/-! ### Structured text and clipboard copy -/

/-- One `fz_stext_line`: its bounding box and the code points of its
characters in order. -/
structure STLine where
  bbox : Rect
  chars : List Nat
  deriving DecidableEq

/-- One `fz_stext_block`: either a text block with its lines, or a non-text
block (skipped by the copy loop). -/
inductive STBlock where
  | text (lines : List STLine)
  | other
  deriving DecidableEq

/-- Lines visited for a block: a non-text block contributes none
(`if (block->type != FZ_STEXT_BLOCK_TEXT) continue;`). -/
def block_lines : STBlock → List STLine
  | .text ls => ls
  | .other => []

/-- The innermost loop: append each character of a line to the buffer
(`g_string_append_unichar`). -/
def append_char_loop (acc : List Nat) (cs : List Nat) : List Nat :=
  cs.foldl (fun a c => a ++ [c]) acc

/-- The per-line loop: for each line whose bbox intersects the selection,
append its characters and then a newline. -/
def line_loop (sel : Rect) (acc : List Nat) (ls : List STLine) : List Nat :=
  ls.foldl (fun a l =>
    if rect_intersects_selection l.bbox sel = 1
    then append_char_loop a l.chars ++ [10] else a) acc

/-- The buffer built by the block/line/char loops of
`copy_selection_to_clipboard` (src/main.c:207-216). -/
def selection_buffer (sel : Rect) (blocks : List STBlock) : List Nat :=
  blocks.foldl (fun a b => line_loop sel a (block_lines b)) []

/-- The application state held in the globals of src/main.c that the
claims are about.  `renderCount` counts invocations of the rasterization
path of `render_current_page` (an observable external effect). -/
structure AppState where
  docOpen : Bool
  page_count : Int
  current_page : Int
  zoom_factor : ℚ
  bookmark_page : Int
  selection_rect : Rect
  page_w : Int
  page_h : Int
  renderCount : Nat
  deriving DecidableEq

/-- `copy_selection_to_clipboard` (src/main.c:196): returns the state after
the call together with the text placed on the clipboard (`none` when the
clipboard is not modified).  The early return fires when no document is
open or the selection rectangle is empty; otherwise the buffer is built,
and when nonempty it is placed on the clipboard with a trailing newline
stripped, while `fz_always` clears the selection rectangle. -/
def copy_selection_to_clipboard (blocks : List STBlock) (s : AppState) :
    AppState × Option (List Nat) :=
  if ¬s.docOpen ∨ s.selection_rect.x0 ≥ s.selection_rect.x1 ∨
      s.selection_rect.y0 ≥ s.selection_rect.y1 then (s, none)
  else
    let buf := selection_buffer s.selection_rect blocks
    ({s with selection_rect := emptyRect},
     if 0 < buf.length then
       some (if buf.getLast? = some 10 then buf.dropLast else buf)
     else none)

/-- The text lines of the page whose bounding boxes strictly intersect the
selection, in document order. -/
def included_lines (sel : Rect) (blocks : List STBlock) : List STLine :=
  (blocks.flatMap block_lines).filter
    (fun l => rect_intersects_selection l.bbox sel = 1)

/-- The characters of the included lines in document order, one newline
after each line. -/
def included_text (sel : Rect) (blocks : List STBlock) : List Nat :=
  (included_lines sel blocks).flatMap (fun l => l.chars ++ [10])

theorem append_char_loop_eq (cs acc : List Nat) :
    append_char_loop acc cs = acc ++ cs := by
  simp only [append_char_loop]
  induction cs generalizing acc with
  | nil => simp
  | cons c cs ih =>
    rw [List.foldl_cons, ih]
    simp

theorem line_loop_eq (sel : Rect) (ls : List STLine) (acc : List Nat) :
    line_loop sel acc ls = acc ++
      (ls.filter (fun l => rect_intersects_selection l.bbox sel = 1)).flatMap
        (fun l => l.chars ++ [10]) := by
  simp only [line_loop]
  induction ls generalizing acc with
  | nil => simp
  | cons l ls ih =>
    rw [List.foldl_cons]
    by_cases hl : rect_intersects_selection l.bbox sel = 1
    · rw [if_pos hl, ih, append_char_loop_eq]
      simp [hl]
    · rw [if_neg hl, ih]
      simp [hl]

theorem selection_buffer_eq (sel : Rect) (blocks : List STBlock) :
    selection_buffer sel blocks = included_text sel blocks := by
  suffices h : ∀ acc, blocks.foldl (fun a b => line_loop sel a (block_lines b)) acc =
      acc ++ included_text sel blocks by
    simpa [selection_buffer] using h []
  induction blocks with
  | nil => intro acc; simp [included_text, included_lines]
  | cons b bs ih =>
    intro acc
    rw [List.foldl_cons, ih, line_loop_eq]
    simp only [included_text, included_lines, List.flatMap_cons, List.filter_append,
      List.flatMap_append, List.append_assoc]

theorem flatMap_line_text_ne_nil (L : List STLine) (hL : L ≠ []) :
    L.flatMap (fun l => l.chars ++ [10]) ≠ [] := by
  cases L with
  | nil => exact absurd rfl hL
  | cons l ls =>
    rw [List.flatMap_cons]
    intro h
    have := List.append_eq_nil.mp h
    have := List.append_eq_nil.mp this.1
    simp at this

theorem flatMap_line_text_getLast (L : List STLine) (hL : L ≠ []) :
    (L.flatMap (fun l => l.chars ++ [10])).getLast? = some 10 := by
  induction L with
  | nil => exact absurd rfl hL
  | cons l ls ih =>
    rw [List.flatMap_cons]
    by_cases hls : ls = []
    · subst hls
      simp only [List.flatMap_nil, List.append_nil, ← List.append_assoc]
      exact List.getLast?_concat _
    · rw [List.getLast?_append_of_ne_nil _ (flatMap_line_text_ne_nil ls hls)]
      exact ih hls

/-- Claim C5: clipboard copy operates at line granularity.  With a document
open and a non-empty selection rectangle, the clipboard receives exactly
the concatenation, in document order, of the characters of every text line
whose bounding box strictly intersects the selection, one newline after
each included line, with the final trailing newline removed — and nothing
at all when no line is included.  With an empty selection rectangle or no
document, the call modifies neither the clipboard nor the state. -/
theorem copy_selection_text (blocks : List STBlock) (s : AppState)
    (hdoc : s.docOpen = true)
    (hx : s.selection_rect.x0 < s.selection_rect.x1)
    (hy : s.selection_rect.y0 < s.selection_rect.y1) :
    ((copy_selection_to_clipboard blocks s).2 =
      if included_lines s.selection_rect blocks = [] then none
      else some ((included_text s.selection_rect blocks).dropLast)) ∧
    (∀ s2 : AppState, s2.docOpen = false ∨
        s2.selection_rect.x1 ≤ s2.selection_rect.x0 ∨
        s2.selection_rect.y1 ≤ s2.selection_rect.y0 →
      copy_selection_to_clipboard blocks s2 = (s2, none)) := by
  constructor
  · have hguard : ¬ (¬s.docOpen ∨ s.selection_rect.x0 ≥ s.selection_rect.x1 ∨
        s.selection_rect.y0 ≥ s.selection_rect.y1) := by
      push_neg
      exact ⟨by simp [hdoc], hx, hy⟩
    rw [copy_selection_to_clipboard]
    simp only [hguard, if_false]
    rw [selection_buffer_eq]
    by_cases hinc : included_lines s.selection_rect blocks = []
    · simp [hinc, included_text]
    · have hne : included_text s.selection_rect blocks ≠ [] :=
        flatMap_line_text_ne_nil _ hinc
      have hlast : (included_text s.selection_rect blocks).getLast? = some 10 :=
        flatMap_line_text_getLast _ hinc
      have hlen : 0 < (included_text s.selection_rect blocks).length :=
        List.length_pos.mpr hne
      simp [hinc, hlast, hlen]
  · intro s2 h2
    rw [copy_selection_to_clipboard, if_pos]
    rcases h2 with h2 | h2 | h2
    · left; simp [h2]
    · right; left; exact h2
    · right; right; exact h2

/-- A concrete page for the C5 witness: one text block with one line. -/
def exBlocks : List STBlock :=
  [STBlock.text [⟨⟨0, 0, 4, 4⟩, [72, 73]⟩]]

/-- A concrete state for the C5 witness: document open, selection (1,1)-(3,3). -/
def exState5 : AppState :=
  { docOpen := true, page_count := 1, current_page := 0, zoom_factor := 1,
    bookmark_page := -1, selection_rect := ⟨1, 1, 3, 3⟩, page_w := 0,
    page_h := 0, renderCount := 0 }

/-- Witness for C5: copying with a selection that crosses the single line
places that line's characters (newline stripped) on the clipboard. -/
theorem copy_selection_text_witness :
    (copy_selection_to_clipboard exBlocks exState5).2 = some [72, 73] := by
  have h := (copy_selection_text exBlocks exState5 rfl
    (by norm_num [exState5]) (by norm_num [exState5])).1
  rw [h]
  decide

/-! ### State-changing actions (src/main.c:287-362)

Rasterization is delegated to the external library; its observable outcome
(the pixmap dimensions for a given page and zoom) is abstracted by an
oracle `dims`.  Each call into the rasterization path bumps
`renderCount`. -/

/-- `render_current_page` (src/main.c:121) as a state transformer: returns
unchanged when no document is open, otherwise records the new raster
dimensions and the fact that a render happened.  (The pixel conversion it
performs is `render_pixels` above.) -/
def render_current_page (dims : Int → ℚ → Int × Int) (s : AppState) : AppState :=
  if ¬s.docOpen then s
  else { s with
    page_w := (dims s.current_page s.zoom_factor).1,
    page_h := (dims s.current_page s.zoom_factor).2,
    renderCount := s.renderCount + 1 }

/-- `go_to_page` (src/main.c:287): clamp the target page to
`[0, page_count-1]` (low bound first, then high bound), return without any
change when the clamped target is the current page, otherwise move, clear
the selection and re-render. -/
def go_to_page (dims : Int → ℚ → Int × Int) (delta : Int) (s : AppState) : AppState :=
  if ¬s.docOpen then s
  else
    let np0 := s.current_page + delta
    let np1 := if np0 < 0 then 0 else np0
    let np2 := if np1 ≥ s.page_count then s.page_count - 1 else np1
    if np2 = s.current_page then s
    else render_current_page dims
      { s with current_page := np2, selection_rect := emptyRect }

/-- `on_zoom_in` (src/main.c:304): multiply the zoom by 1.2, cap at 5.0,
clear the selection, re-render. -/
def on_zoom_in (dims : Int → ℚ → Int × Int) (s : AppState) : AppState :=
  if ¬s.docOpen then s
  else
    let z0 := s.zoom_factor * (6 / 5)
    let z1 := if z0 > 5 then 5 else z0
    render_current_page dims { s with zoom_factor := z1, selection_rect := emptyRect }

/-- `on_zoom_out` (src/main.c:312): divide the zoom by 1.2, floor at 0.1,
clear the selection, re-render. -/
def on_zoom_out (dims : Int → ℚ → Int × Int) (s : AppState) : AppState :=
  if ¬s.docOpen then s
  else
    let z0 := s.zoom_factor / (6 / 5)
    let z1 := if z0 < 1 / 10 then 1 / 10 else z0
    render_current_page dims { s with zoom_factor := z1, selection_rect := emptyRect }

/-- `on_toggle_bookmark` (src/main.c:320): toggle the bookmark between the
current page and the unset sentinel, then save the sidecar file (whose
content is `save_bookmark` of the new bookmark state). -/
def on_toggle_bookmark (s : AppState) : AppState :=
  if ¬s.docOpen then s
  else { s with bookmark_page :=
    if s.bookmark_page = s.current_page then -1 else s.current_page }

/-- `on_go_to_bookmark` (src/main.c:326): jump to the bookmarked page when
one is set, clearing the selection and re-rendering. -/
def on_go_to_bookmark (dims : Int → ℚ → Int × Int) (s : AppState) : AppState :=
  if ¬s.docOpen ∨ s.bookmark_page < 0 then s
  else render_current_page dims
    { s with current_page := s.bookmark_page, selection_rect := emptyRect }

/-- `open_pdf` (src/main.c:336): reset zoom, raster size and selection;
then either fail to open (`openResult = none`: document closed, page count
zeroed, current page and bookmark untouched since the `fz_try` body was
abandoned) or succeed with `pc` pages: current page starts at 0, the
sidecar is loaded, and an in-range bookmark becomes the current page while
an out-of-range one is reset to the unset sentinel. -/
def open_pdf (dims : Int → ℚ → Int × Int) (openResult : Option Int)
    (sidecar : Option (List Nat)) (s : AppState) : AppState :=
  let s1 : AppState := { s with
    docOpen := false,
    zoom_factor := 1,
    page_w := 0,
    page_h := 0,
    selection_rect := emptyRect }
  match openResult with
  | none => render_current_page dims { s1 with page_count := 0 }
  | some pc =>
    let bm := load_bookmark sidecar
    let s2 : AppState := { s1 with
      docOpen := true,
      page_count := pc,
      current_page := 0,
      bookmark_page := bm }
    let s3 := if 0 ≤ bm ∧ bm < pc then { s2 with current_page := bm }
      else { s2 with bookmark_page := -1 }
    render_current_page dims s3

/-- The user-triggered operations that mutate the state. -/
inductive Op where
  | zoomIn
  | zoomOut
  | page (delta : Int)
  | toggleBookmark
  | goBookmark
  | openDoc (res : Option Int) (sidecar : Option (List Nat))
  | copySel (blocks : List STBlock)

/-- Dispatch one operation. -/
def step (dims : Int → ℚ → Int × Int) : Op → AppState → AppState
  | .zoomIn, s => on_zoom_in dims s
  | .zoomOut, s => on_zoom_out dims s
  | .page delta, s => go_to_page dims delta s
  | .toggleBookmark, s => on_toggle_bookmark s
  | .goBookmark, s => on_go_to_bookmark dims s
  | .openDoc res sidecar, s => open_pdf dims res sidecar s
  | .copySel blocks, s => (copy_selection_to_clipboard blocks s).1

/-- The initial values of the globals (src/main.c:15-34). -/
def init_state : AppState :=
  { docOpen := false, page_count := 0, current_page := 0, zoom_factor := 1,
    bookmark_page := -1, selection_rect := emptyRect, page_w := 0,
    page_h := 0, renderCount := 0 }

/-- Run a sequence of operations from a state. -/
def run (dims : Int → ℚ → Int × Int) (ops : List Op) (s : AppState) : AppState :=
  ops.foldl (fun t op => step dims op t) s

theorem render_current_page_fields (dims : Int → ℚ → Int × Int) (s : AppState) :
    (render_current_page dims s).zoom_factor = s.zoom_factor ∧
    (render_current_page dims s).selection_rect = s.selection_rect ∧
    (render_current_page dims s).docOpen = s.docOpen ∧
    (render_current_page dims s).current_page = s.current_page ∧
    (render_current_page dims s).page_count = s.page_count ∧
    (render_current_page dims s).bookmark_page = s.bookmark_page := by
  rw [render_current_page]
  split <;> simp

/-- Claim C6: page navigation is clamped and in-range.  With a document
open, `page_count ≥ 1` and `current_page ∈ [0, page_count-1]`,
`go_to_page delta` sets the current page to
`min (page_count-1) (max 0 (current_page+delta))`, which stays in range;
and when that clamped target is the current page the call changes no state
at all. -/
theorem go_to_page_clamped (dims : Int → ℚ → Int × Int) (delta : Int)
    (s : AppState) (hdoc : s.docOpen = true) (hpc : 1 ≤ s.page_count)
    (h0 : 0 ≤ s.current_page) (h1 : s.current_page < s.page_count) :
    (go_to_page dims delta s).current_page =
      min (s.page_count - 1) (max 0 (s.current_page + delta)) ∧
    0 ≤ (go_to_page dims delta s).current_page ∧
    (go_to_page dims delta s).current_page < s.page_count ∧
    (min (s.page_count - 1) (max 0 (s.current_page + delta)) = s.current_page →
      go_to_page dims delta s = s) := by
  obtain ⟨sdoc, spc, scur, szf, sbm, ssel, sw, sh, srr⟩ := s
  replace hdoc : sdoc = true := hdoc
  replace hpc : 1 ≤ spc := hpc
  replace h0 : 0 ≤ scur := h0
  replace h1 : scur < spc := h1
  subst hdoc
  refine ⟨?_, ?_, ?_, ?_⟩
  · simp only [go_to_page, render_current_page]
    simp only [Bool.true_eq_false, not_true_eq_false, if_false, ite_false, ite_true]
    split_ifs <;> simp <;> omega
  · simp only [go_to_page, render_current_page]
    split_ifs <;> simp <;> omega
  · simp only [go_to_page, render_current_page]
    split_ifs <;> simp <;> omega
  · intro hmin
    simp only [go_to_page, render_current_page]
    split_ifs <;> first | rfl | (simp_all; omega)

/-- A rasterization oracle for witnesses. -/
def exDims : Int → ℚ → Int × Int := fun _ _ => (0, 0)

/-- A 3-page open document on page 1 for the C6 witness. -/
def exState6 : AppState :=
  { docOpen := true, page_count := 3, current_page := 1, zoom_factor := 1,
    bookmark_page := -1, selection_rect := emptyRect, page_w := 0,
    page_h := 0, renderCount := 0 }

/-- Witness for C6: stepping 5 pages forward from page 1 of 3 clamps to
the last page. -/
theorem go_to_page_clamped_witness :
    (go_to_page exDims 5 exState6).current_page = 2 := by
  have h := (go_to_page_clamped exDims 5 exState6 rfl (by decide)
    (by decide) (by decide)).1
  rw [h]
  decide

/-! ### Zoom invariant and selection reset -/

/-- The zoom factor lies in the interval `[0.1, 5.0]`. -/
def ZoomOK (s : AppState) : Prop :=
  1 / 10 ≤ s.zoom_factor ∧ s.zoom_factor ≤ 5

theorem render_zoom (dims : Int → ℚ → Int × Int) (t : AppState) :
    (render_current_page dims t).zoom_factor = t.zoom_factor :=
  (render_current_page_fields dims t).1

theorem render_sel (dims : Int → ℚ → Int × Int) (t : AppState) :
    (render_current_page dims t).selection_rect = t.selection_rect :=
  (render_current_page_fields dims t).2.1

theorem render_docOpen (dims : Int → ℚ → Int × Int) (t : AppState) :
    (render_current_page dims t).docOpen = t.docOpen :=
  (render_current_page_fields dims t).2.2.1

theorem render_cur (dims : Int → ℚ → Int × Int) (t : AppState) :
    (render_current_page dims t).current_page = t.current_page :=
  (render_current_page_fields dims t).2.2.2.1

theorem render_pc (dims : Int → ℚ → Int × Int) (t : AppState) :
    (render_current_page dims t).page_count = t.page_count :=
  (render_current_page_fields dims t).2.2.2.2.1

theorem render_bm (dims : Int → ℚ → Int × Int) (t : AppState) :
    (render_current_page dims t).bookmark_page = t.bookmark_page :=
  (render_current_page_fields dims t).2.2.2.2.2

theorem step_preserves_zoom (dims : Int → ℚ → Int × Int) (op : Op)
    (s : AppState) (h : ZoomOK s) : ZoomOK (step dims op s) := by
  obtain ⟨hl, hr⟩ := h
  cases op with
  | zoomIn =>
    simp only [step, on_zoom_in]
    split_ifs with h1 h2
    all_goals try exact ⟨hl, hr⟩
    all_goals rw [ZoomOK, render_zoom]
    all_goals first
      | (show (1 : ℚ) / 10 ≤ 5 ∧ (5 : ℚ) ≤ 5
         norm_num)
      | (show (1 : ℚ) / 10 ≤ s.zoom_factor * (6 / 5) ∧ s.zoom_factor * (6 / 5) ≤ 5
         push_neg at h2
         constructor <;> nlinarith)
  | zoomOut =>
    simp only [step, on_zoom_out]
    split_ifs with h1 h2
    all_goals try exact ⟨hl, hr⟩
    all_goals rw [ZoomOK, render_zoom]
    all_goals first
      | (show (1 : ℚ) / 10 ≤ 1 / 10 ∧ (1 : ℚ) / 10 ≤ 5
         norm_num)
      | (show (1 : ℚ) / 10 ≤ s.zoom_factor / (6 / 5) ∧ s.zoom_factor / (6 / 5) ≤ 5
         push_neg at h2
         have hq : s.zoom_factor / (6 / 5) = s.zoom_factor * (5 / 6) := by ring
         rw [hq] at h2 ⊢
         constructor <;> nlinarith)
  | page delta =>
    simp only [step, go_to_page]
    split_ifs
    all_goals try exact ⟨hl, hr⟩
    all_goals rw [ZoomOK, render_zoom]
    all_goals exact ⟨hl, hr⟩
  | toggleBookmark =>
    simp only [step, on_toggle_bookmark]
    split_ifs
    all_goals exact ⟨hl, hr⟩
  | goBookmark =>
    simp only [step, on_go_to_bookmark]
    split_ifs
    all_goals try exact ⟨hl, hr⟩
    all_goals rw [ZoomOK, render_zoom]
    all_goals exact ⟨hl, hr⟩
  | openDoc res sidecar =>
    simp only [step, open_pdf]
    cases res with
    | none =>
      rw [ZoomOK, render_zoom]
      norm_num
    | some pc =>
      simp only []
      split_ifs
      all_goals rw [ZoomOK, render_zoom]
      all_goals norm_num
  | copySel blocks =>
    simp only [step, copy_selection_to_clipboard]
    split_ifs
    all_goals exact ⟨hl, hr⟩

theorem run_preserves_zoom (dims : Int → ℚ → Int × Int) (ops : List Op) :
    ∀ s : AppState, ZoomOK s → ZoomOK (run dims ops s) := by
  induction ops with
  | nil => intro s h; exact h
  | cons op ops ih =>
    intro s h
    exact ih _ (step_preserves_zoom dims op s h)

/-- Claim C8: starting from the initial zoom 1.0 (and reset to 1.0 on
every document open), after any sequence of operations — in particular any
mix of zoom-in (multiply by 1.2, capped at 5.0) and zoom-out (divide by
1.2, floored at 0.1) — the zoom factor stays within `[0.1, 5.0]`, so it is
strictly positive and the division in `screen_to_pdf` is never a division
by zero. -/
theorem zoom_factor_bounded (dims : Int → ℚ → Int × Int) (ops : List Op) :
    1 / 10 ≤ (run dims ops init_state).zoom_factor ∧
    (run dims ops init_state).zoom_factor ≤ 5 ∧
    0 < (run dims ops init_state).zoom_factor := by
  have h0 : ZoomOK init_state := by
    rw [ZoomOK, init_state]
    norm_num
  have h := run_preserves_zoom dims ops init_state h0
  rw [ZoomOK] at h
  exact ⟨h.1, h.2, lt_of_lt_of_le (by norm_num) h.1⟩

/-- Claim C9: the selection rectangle is cleared by every operation that
changes what is displayed: `go_to_page`, zoom in, zoom out, jumping to the
bookmark and a completed clipboard copy each either leave the whole state
untouched (their early return) or end with the selection rectangle equal
to the empty rectangle, and opening a document always clears it. -/
theorem selection_cleared_on_view_change (dims : Int → ℚ → Int × Int)
    (delta : Int) (res : Option Int) (sidecar : Option (List Nat))
    (blocks : List STBlock) (s : AppState) :
    (go_to_page dims delta s = s ∨
      (go_to_page dims delta s).selection_rect = emptyRect) ∧
    (on_zoom_in dims s = s ∨ (on_zoom_in dims s).selection_rect = emptyRect) ∧
    (on_zoom_out dims s = s ∨ (on_zoom_out dims s).selection_rect = emptyRect) ∧
    (on_go_to_bookmark dims s = s ∨
      (on_go_to_bookmark dims s).selection_rect = emptyRect) ∧
    ((open_pdf dims res sidecar s).selection_rect = emptyRect) ∧
    ((copy_selection_to_clipboard blocks s).1 = s ∨
      (copy_selection_to_clipboard blocks s).1.selection_rect = emptyRect) := by
  refine ⟨?_, ?_, ?_, ?_, ?_, ?_⟩
  · simp only [go_to_page]
    split_ifs
    all_goals first
      | (left; rfl)
      | (right; rw [render_sel])
  · simp only [on_zoom_in]
    split_ifs
    all_goals first
      | (left; rfl)
      | (right; rw [render_sel])
  · simp only [on_zoom_out]
    split_ifs
    all_goals first
      | (left; rfl)
      | (right; rw [render_sel])
  · simp only [on_go_to_bookmark]
    split_ifs
    all_goals first
      | (left; rfl)
      | (right; rw [render_sel])
  · simp only [open_pdf]
    cases res with
    | none => rw [render_sel]
    | some pc =>
      simp only []
      split_ifs
      all_goals rw [render_sel]
  · simp only [copy_selection_to_clipboard]
    split_ifs
    all_goals first
      | (left; rfl)
      | (right; rfl)

/-- Claim C10: opening a document successfully (`some pc` pages) resets
the zoom to 1.0 and then restores a valid bookmark: when the sidecar file
yields a page index in `[0, pc-1]`, the current page becomes that index
(and the bookmark keeps it); otherwise the current page becomes 0 and the
bookmark is reset to the unset sentinel `-1`. -/
theorem open_pdf_restores_bookmark (dims : Int → ℚ → Int × Int) (pc : Int)
    (sidecar : Option (List Nat)) (s : AppState) :
    (open_pdf dims (some pc) sidecar s).zoom_factor = 1 ∧
    (open_pdf dims (some pc) sidecar s).docOpen = true ∧
    (open_pdf dims (some pc) sidecar s).page_count = pc ∧
    (if 0 ≤ load_bookmark sidecar ∧ load_bookmark sidecar < pc
     then (open_pdf dims (some pc) sidecar s).current_page = load_bookmark sidecar ∧
       (open_pdf dims (some pc) sidecar s).bookmark_page = load_bookmark sidecar
     else (open_pdf dims (some pc) sidecar s).current_page = 0 ∧
       (open_pdf dims (some pc) sidecar s).bookmark_page = -1) := by
  simp only [open_pdf]
  split_ifs with h
  all_goals refine ⟨?_, ?_, ?_, ?_, ?_⟩
  all_goals first
    | rw [render_zoom]
    | rw [render_docOpen]
    | rw [render_pc]
    | rw [render_cur]
    | rw [render_bm]

end GtkPdf
